import Mathlib

/-!
Shallow embedding of the 2048 board engine (`2048.py`).

This file embeds the `Board` class of `2048.py` in Lean and proves properties
of the embedded engine.  Conventions:

* A Python grid cell holds `None` or a positive integer; we model it as
  `Option Nat` (`none` = empty).
* The grid is row-major, `grid[y][x]` addressing column `x` of row `y`,
  exactly as in the source.
* Randomness (`random.randint(1, 2)` and `random.choice`) is modelled by
  explicit parameters, so every stochastic outcome is a separate input.
* Python list mutation becomes functional update; a Python deep copy of an
  immutable Lean value is the value itself.
* The drawing code (`draw`, `__str__`, colors) and the `graphics` shell are
  peripheral I/O and are not part of the engine; the float
  `self._tile_size = (392 - 8*size)/size` is used only for drawing, but its
  evaluation raises `ZeroDivisionError` when `size = 0`, which the embedded
  constructor reproduces as an `Except.error`.
-/

/-- A grid cell: `none` models Python `None` (empty), `some v` a tile of value `v`. -/
abbrev Tile := Option Nat

/-- The grid, row-major: entry `y`, then entry `x` inside the row, as in
`self._grid[y][x]`. -/
abbrev Grid := List (List Tile)

/-- Read `grid[y][x]`.  All reads performed by the engine on well-formed
boards are in range; the `getD` defaults are never hit there. -/
def getTile (g : Grid) (x y : Nat) : Tile := (g.getD y []).getD x none

/-- Write `grid[y][x] = num` (functional version of the Python assignment). -/
def setTile (g : Grid) (x y : Nat) (v : Nat) : Grid :=
  g.set y ((g.getD y []).set x (some v))

/-- The numeric value of a cell (`None` counts as 0); used to sum lines. -/
def tval : Tile → Nat
  | none => 0
  | some v => v

/-- Sum of the tile values on a line. -/
def lineSum (l : List Tile) : Nat := (l.map tval).sum

/-- The state owned by the Python `Board` object: `self._size`, `self._grid`,
`self._prev_grid` (initially `None`), `self._undo_available`, `self._score`. -/
structure Board where
  size : Nat
  grid : Grid
  prev_grid : Option Grid
  undo_available : Bool
  score : Nat
deriving DecidableEq, Repr

/-- Constructor `Board.__init__(size)`: builds the all-`None` `size × size` grid, score 0,
no undo.  Python then evaluates `(392 - 8*size)/size`, which raises
`ZeroDivisionError` for `size = 0` before the object is ever usable; we model
construction as fallible with exactly that failure case. -/
def Board.init (size : Nat) : Except String Board :=
  if size = 0 then Except.error "ZeroDivisionError"
  else Except.ok { size := size,
                   grid := List.replicate size (List.replicate size none),
                   prev_grid := none,
                   undo_available := false,
                   score := 0 }

/-- Query `Board.can_undo`. -/
def Board.can_undo (b : Board) : Bool := b.undo_available

/-- Query `Board.get_empty_tiles`: the `(x, y)` locations holding `None`, collected
row by row (outer loop `y`, inner loop `x`). -/
def Board.get_empty_tiles (b : Board) : List (Nat × Nat) :=
  (List.range b.size).flatMap (fun y =>
    (List.range b.size).filterMap (fun x =>
      if getTile b.grid x y = none then some (x, y) else none))

/-- Method `Board.add_tile`: `num = random.randint(1, 2) * 2`, then
`x, y = random.choice(self.get_empty_tiles())`, then `self._grid[y][x] = num`.
The random draws are the parameters: `coin = true` models `randint` returning
1 (tile 2), `coin = false` returning 2 (tile 4); `k` selects the chosen empty
cell as index `k % length`.  `random.choice` on an empty list raises
`IndexError`, modelled as `none`. -/
def Board.add_tile (b : Board) (coin : Bool) (k : Nat) : Option Board :=
  let num := (if coin then 1 else 2) * 2
  let empties := b.get_empty_tiles
  if h : empties.length = 0 then none
  else
    let xy := empties.get ⟨k % empties.length, Nat.mod_lt _ (Nat.pos_of_ne_zero h)⟩
    some { b with grid := setTile b.grid xy.1 xy.2 num }

/-- The inner loop shared by all four `swipe_*` methods, over one line of
cells in scan order.  `acc` is the Python accumulator list (`row` / `column`,
seeded `[0]`), `s` the running score.  An empty cell is skipped; a tile equal
to `acc[-1]` merges (double `acc[-1]`, add it to the score, push a fresh `0`);
any other tile is appended. -/
def swipeLineAux (s : Nat) (acc : List Nat) : List Tile → List Nat × Nat
  | [] => (acc, s)
  | none :: rest => swipeLineAux s acc rest
  | some v :: rest =>
      if v = acc.getLastD 0 then
        swipeLineAux (s + 2 * v) (acc.dropLast ++ [2 * v, 0]) rest
      else
        swipeLineAux s (acc ++ [v]) rest

/-- Run the scan loop on a line with the seeded accumulator `[0]` and score
delta 0; returns the final accumulator and the score gained on this line. -/
def swipeLine (line : List Tile) : List Nat × Nat := swipeLineAux 0 [0] line

/-- The nonzero accumulator values, i.e. the tiles written back to the line
(the write-back loops skip `num == 0`). -/
def lineVals (line : List Tile) : List Nat := ((swipeLine line).1).filter (fun n => n ≠ 0)

/-- Write-back used by `swipe_left` / `swipe_up`: nonzero values from index 0
upward, every other cell left `None` (the scan loop already cleared the line). -/
def packFront (size : Nat) (line : List Tile) : List Tile :=
  (lineVals line).map some ++ List.replicate (size - (lineVals line).length) none

/-- Write-back used by `swipe_right` / `swipe_down`: the line is scanned in
reverse order and the nonzero values written at Python indices `-1, -2, …`,
i.e. from the far end backwards. -/
def packBack (size : Nat) (line : List Tile) : List Tile :=
  (packFront size line.reverse).reverse

/-- Method `Board.swipe_left`: each row `y` in `range(size)` is scanned left to
right and packed to the left; the score gains the per-row merge totals. -/
def Board.swipe_left (b : Board) : Board :=
  { b with grid := (List.range b.size).map (fun y => packFront b.size (b.grid.getD y [])),
           score := b.score +
             ((List.range b.size).map (fun y => (swipeLine (b.grid.getD y [])).2)).sum }

/-- Method `Board.swipe_right`: each row is scanned right to left (`range(size-1, -1, -1)`)
and written back from index `-1` downward. -/
def Board.swipe_right (b : Board) : Board :=
  { b with grid := (List.range b.size).map (fun y => packBack b.size (b.grid.getD y [])),
           score := b.score +
             ((List.range b.size).map (fun y => (swipeLine (b.grid.getD y []).reverse).2)).sum }

/-- Column `x` of the grid, top to bottom: the cells `grid[y][x]`. -/
def column (g : Grid) (x : Nat) : List Tile := g.map (fun row => row.getD x none)

/-- Method `Board.swipe_up`: each column `x` is scanned top to bottom and packed
upward; the resulting grid is rebuilt cell by cell from the packed columns
(writes to distinct columns are independent in the source loop). -/
def Board.swipe_up (b : Board) : Board :=
  { b with grid := (List.range b.size).map (fun y =>
             (List.range b.size).map (fun x =>
               (packFront b.size (column b.grid x)).getD y none)),
           score := b.score +
             ((List.range b.size).map (fun x => (swipeLine (column b.grid x)).2)).sum }

/-- Method `Board.swipe_down`: each column is scanned bottom to top
(`range(size-1, -1, -1)`) and written back from Python index `-1` upward. -/
def Board.swipe_down (b : Board) : Board :=
  { b with grid := (List.range b.size).map (fun y =>
             (List.range b.size).map (fun x =>
               (packBack b.size (column b.grid x)).getD y none)),
           score := b.score +
             ((List.range b.size).map (fun x => (swipeLine (column b.grid x).reverse).2)).sum }

/-- The four direction tokens `"l"`, `"r"`, `"u"`, `"d"` accepted by
`perform_move` (any other string fails the `assert`). -/
inductive Direction
  | l | r | u | d
deriving DecidableEq, Repr

/-- Dispatch of `perform_move` to the four swipe methods. -/
def Board.do_swipe (b : Board) : Direction → Board
  | Direction.l => b.swipe_left
  | Direction.r => b.swipe_right
  | Direction.u => b.swipe_up
  | Direction.d => b.swipe_down

/-- Method `Board.perform_move`: snapshot the grid, apply the swipe, compare.  If the
grid changed: store the snapshot in `prev_grid`, enable undo, spawn a tile
(`add_tile`, with its random draws passed through).  Otherwise: reassign the
snapshot to the grid and change nothing else. -/
def Board.perform_move (b : Board) (dir : Direction) (coin : Bool) (k : Nat) : Option Board :=
  let copy := b.grid
  let b2 := b.do_swipe dir
  if b2.grid = copy then some { b2 with grid := copy }
  else Board.add_tile { b2 with prev_grid := some copy, undo_available := true } coin k

/-- Method `Board.undo`: if undo is available, replace the grid by a (deep) copy of
`prev_grid` and clear the flag; otherwise do nothing.  `prev_grid` itself is
not cleared.  In every reachable state the flag is only true when `prev_grid`
is an actual grid, so the `getD []` default is never read. -/
def Board.undo (b : Board) : Board :=
  if b.undo_available then
    { b with grid := b.prev_grid.getD [], undo_available := false }
  else b

/-- Method `Board._get_adjacent_tiles(x, y)`: the neighbor values appended in source
order: left `grid[y][x-1]`, right `grid[y][x+1]`, up `grid[y-1][x]`, and then
the literal source expression `self._grid[y][y+1]` (the row `y` cell at column `y+1`,
reproducing the code as written). -/
def Board.get_adjacent_tiles (b : Board) (x y : Nat) : List Tile :=
  (if 0 < x then [getTile b.grid (x - 1) y] else []) ++
  (if x < b.size - 1 then [getTile b.grid (x + 1) y] else []) ++
  (if 0 < y then [getTile b.grid x (y - 1)] else []) ++
  (if y < b.size - 1 then [(b.grid.getD y []).getD (y + 1) none] else [])

/-- Method `Board.is_game_over`: false if any empty cell exists; otherwise false if
the value of some cell occurs in its `_get_adjacent_tiles` list; else true. -/
def Board.is_game_over (b : Board) : Bool :=
  if b.get_empty_tiles ≠ [] then false
  else !((List.range b.size).any (fun y =>
      (List.range b.size).any (fun x =>
        decide (getTile b.grid x y ∈ b.get_adjacent_tiles x y))))

/-- Modelled from the spec (section 8 / claim C1): "`is_game_over` is true iff
grid is full and no two adjacent (4-neighbor) cells share a value".  This is
the specification-side predicate, written from the words of the spec, to compare
with `Board.is_game_over` above. -/
def game_over_spec (b : Board) : Bool :=
  (List.range b.size).all (fun y => (List.range b.size).all (fun x =>
    getTile b.grid x y ≠ none &&
    (decide (x + 1 < b.size) → getTile b.grid x y ≠ getTile b.grid (x + 1) y) &&
    (decide (y + 1 < b.size) → getTile b.grid x y ≠ getTile b.grid x (y + 1))))

/-- Well-formed board: the grid is a `size × size` matrix.  Construction
produces this shape and every engine operation preserves it. -/
def BoardWF (b : Board) : Prop :=
  b.grid.length = b.size ∧ ∀ r ∈ b.grid, r.length = b.size


/-! ## Derived definitions used by the verification -/

/-- Length of the nonzero part of an accumulator (the values the write-back
loop will actually place). -/
def nzlen (l : List Nat) : Nat := (l.filter (fun n => n ≠ 0)).length

/-- Number of occupied cells on a line. -/
def countSome (line : List Tile) : Nat := (line.filterMap id).length

/-- Total value on the grid. -/
def gridSum (g : Grid) : Nat := (g.map lineSum).sum

/-- Total number of occupied cells on the grid. -/
def gridCount (g : Grid) : Nat := (g.map countSome).sum

/-- The line a swipe acts on: row `i` for left/right swipes, column `i` for
up/down swipes. -/
def lineOf (b : Board) (dir : Direction) (i : Nat) : List Tile :=
  match dir with
  | Direction.l => b.grid.getD i []
  | Direction.r => b.grid.getD i []
  | Direction.u => column b.grid i
  | Direction.d => column b.grid i

/-- Modelled from the spec (single-merge rule, C3): `MergedOnce input output`
holds when `output` arises from `input` by splitting it into consecutive
blocks that are either a single tile, kept as is, or two equal tiles, merged
exactly once into their doubled value.  In particular no tile contributes to
two merges. -/
inductive MergedOnce : List Nat → List Nat → Prop
  | nil : MergedOnce [] []
  | keep (v : Nat) (rest out : List Nat) : MergedOnce rest out →
      MergedOnce (v :: rest) (v :: out)
  | merge (v : Nat) (rest out : List Nat) : MergedOnce rest out →
      MergedOnce (v :: v :: rest) (2 * v :: out)

/-- Greedy single-merge pass over the compacted tile values of a line, with a
`pending` value not yet emitted (`0` = nothing pending, mirroring the loop
sentinel); used to relate the accumulator loop to `MergedOnce`. -/
def merge_line (pending : Nat) : List Nat → List Nat
  | [] => if pending = 0 then [] else [pending]
  | v :: rest =>
      if v = pending then 2 * pending :: merge_line 0 rest
      else (if pending = 0 then [] else [pending]) ++ merge_line v rest

/-- A cell allowed by the data-model invariant: empty, or a power of two that
is at least 2. -/
def TileOK (t : Tile) : Prop := ∀ v, t = some v → ∃ k, 1 ≤ k ∧ v = 2 ^ k

/-- Every cell of the line satisfies `TileOK`. -/
def LineOK (line : List Tile) : Prop := ∀ t ∈ line, TileOK t

/-- Every cell of the grid satisfies `TileOK`. -/
def GridOK (g : Grid) : Prop := ∀ r ∈ g, LineOK r

/-- The engine invariant of the data model: all grid cells hold powers of two
that are at least 2, and so does the stored undo snapshot. -/
def BoardInv (b : Board) : Prop :=
  GridOK b.grid ∧ ∀ pg, b.prev_grid = some pg → GridOK pg

/-- Example board: row `[2, 4, 2, 2]` in row 0 of an otherwise empty 4x4
grid, with starting score `s`. -/
def exRow2422 (s : Nat) : Board :=
  { size := 4,
    grid := [[some 2, some 4, some 2, some 2],
             [none, none, none, none],
             [none, none, none, none],
             [none, none, none, none]],
    prev_grid := none, undo_available := false, score := s }

/-- Example board: row `[2, 2, 2, 2]` in row 0 of an otherwise empty 4x4
grid, score 0. -/
def exRow2222 : Board :=
  { size := 4,
    grid := [[some 2, some 2, some 2, some 2],
             [none, none, none, none],
             [none, none, none, none],
             [none, none, none, none]],
    prev_grid := none, undo_available := false, score := 0 }

/-- Example board: a full 2x2 grid with pairwise distinct values, so no two
adjacent cells share a value and no move can change the board. -/
def exFull2 : Board :=
  { size := 2, grid := [[some 2, some 4], [some 8, some 16]],
    prev_grid := none, undo_available := false, score := 0 }

/-- Example board with an available undo snapshot. -/
def exUndo : Board :=
  { size := 2, grid := [[some 4, none], [none, none]],
    prev_grid := some [[some 2, none], [none, none]], undo_available := true,
    score := 4 }

/-- Example board on which a left swipe is a no-op. -/
def exNoop : Board :=
  { size := 2, grid := [[some 2, none], [none, none]],
    prev_grid := none, undo_available := false, score := 0 }

/-- Example board on which a left swipe moves a tile. -/
def exMove : Board :=
  { size := 2, grid := [[none, some 2], [none, none]],
    prev_grid := none, undo_available := false, score := 0 }

/-- The intermediate board that `perform_move` hands to `add_tile` after an
effective swipe: the swiped board with the snapshot stored in `prev_grid` and
undo enabled (the record built inline in `perform_move`). -/
def commitBoard (b : Board) (dir : Direction) : Board :=
  { b.do_swipe dir with prev_grid := some b.grid, undo_available := true }

/-! ## List helper lemmas -/

theorem getD_range_map {α : Type} (n : Nat) (f : Nat → α) (i : Nat) (d : α) (h : i < n) :
    ((List.range n).map f).getD i d = f i := by
  rw [List.getD_eq_getElem?_getD, List.getElem?_map, List.getElem?_range h]
  rfl

theorem range_map_getD {α : Type} (l : List α) (d : α) :
    (List.range l.length).map (fun i => l.getD i d) = l := by
  induction l with
  | nil => rfl
  | cons a t ih =>
    rw [List.length_cons, List.range_succ_eq_map, List.map_cons, List.map_map]
    refine congrArg (a :: ·) ?_
    have h : ((fun i => (a :: t).getD i d) ∘ Nat.succ) = (fun i => t.getD i d) := by
      funext i
      simp [List.getD_cons_succ, Nat.succ_eq_add_one]
    rw [h, ih]

theorem sum_dropLast_getLastD (l : List Nat) : l.dropLast.sum + l.getLastD 0 = l.sum := by
  induction l with
  | nil => rfl
  | cons a t ih =>
    cases t with
    | nil => simp
    | cons b t2 =>
      rw [List.dropLast_cons₂, List.sum_cons, List.sum_cons, List.getLastD_cons]
      have h2 : (b :: t2).getLastD a = (b :: t2).getLastD 0 := by
        rw [List.getLastD_cons, List.getLastD_cons]
      rw [h2]
      have := ih
      rw [List.getLastD_cons] at this
      omega

theorem sum_filter_nonzero (l : List Nat) : (l.filter (fun n => n ≠ 0)).sum = l.sum := by
  induction l with
  | nil => rfl
  | cons a t ih =>
    by_cases h : a = 0
    · subst h; simpa using ih
    · rw [List.filter_cons_of_pos (by simpa using h), List.sum_cons, List.sum_cons, ih]

theorem lineSum_cons (t : Tile) (rest : List Tile) :
    lineSum (t :: rest) = tval t + lineSum rest := by
  simp [lineSum]

theorem lineSum_reverse (l : List Tile) : lineSum l.reverse = lineSum l := by
  simp only [lineSum, List.map_reverse]
  exact List.sum_reverse _

/-! ## Properties of the scan loop -/

theorem swipeLineAux_sum : ∀ (tiles : List Tile) (acc : List Nat) (s : Nat),
    ((swipeLineAux s acc tiles).1).sum = acc.sum + lineSum tiles := by
  intro tiles
  induction tiles with
  | nil => intro acc s; simp [swipeLineAux, lineSum]
  | cons t rest ih =>
    intro acc s
    cases t with
    | none =>
      rw [swipeLineAux, ih, lineSum_cons]
      simp [tval]
    | some v =>
      rw [swipeLineAux]
      by_cases h : v = acc.getLastD 0
      · rw [if_pos h, ih, lineSum_cons]
        have hd := sum_dropLast_getLastD acc
        simp only [List.sum_append, List.sum_cons, List.sum_nil, tval]
        omega
      · rw [if_neg h, ih, lineSum_cons]
        simp only [List.sum_append, List.sum_cons, List.sum_nil, tval]
        omega

theorem lineVals_sum (line : List Tile) : (lineVals line).sum = lineSum line := by
  rw [lineVals, sum_filter_nonzero, swipeLine, swipeLineAux_sum]
  simp

theorem lineSum_packFront (size : Nat) (line : List Tile) :
    lineSum (packFront size line) = lineSum line := by
  rw [packFront, lineSum, List.map_append, List.sum_append, List.map_map]
  have h1 : (tval ∘ some) = (id : Nat → Nat) := by funext v; rfl
  have h2 : ∀ n : Nat, ((List.replicate n (none : Tile)).map tval).sum = 0 := by
    intro n
    induction n with
    | zero => rfl
    | succ m ihm =>
      rw [List.replicate_succ, List.map_cons, List.sum_cons, ihm]
      rfl
  rw [h1, List.map_id, h2, lineVals_sum]
  omega

theorem lineSum_packBack (size : Nat) (line : List Tile) :
    lineSum (packBack size line) = lineSum line := by
  rw [packBack, lineSum_reverse, lineSum_packFront, lineSum_reverse]

theorem nzlen_merge (acc : List Nat) (v : Nat) (h : acc.getLastD 0 = v) :
    nzlen (acc.dropLast ++ [2 * v, 0]) = nzlen acc := by
  cases hacc : acc.eq_nil_or_concat with
  | inl hnil =>
    subst hnil
    simp only [List.getLastD_nil] at h
    subst h
    rfl
  | inr hcon =>
    obtain ⟨l2, b, rfl⟩ := hcon
    rw [List.concat_eq_append] at h ⊢
    rw [List.dropLast_concat]
    have hb : b = v := by
      rw [List.getLastD_concat] at h
      exact h
    subst hb
    simp only [nzlen, List.filter_append, List.length_append]
    by_cases hv : b = 0
    · subst hv; simp
    · have h2v : ¬(2 * b = 0) := by omega
      simp [hv, h2v]

theorem swipeLineAux_nz : ∀ (tiles : List Tile) (acc : List Nat) (s : Nat),
    nzlen (swipeLineAux s acc tiles).1 ≤ nzlen acc + countSome tiles ∧
      (nzlen (swipeLineAux s acc tiles).1 = nzlen acc + countSome tiles →
        (swipeLineAux s acc tiles).2 = s ∧
          (swipeLineAux s acc tiles).1 = acc ++ tiles.filterMap id) := by
  intro tiles
  induction tiles with
  | nil =>
    intro acc s
    refine ⟨by simp [swipeLineAux, countSome], fun _ => ⟨rfl, by simp [swipeLineAux]⟩⟩
  | cons t rest ih =>
    intro acc s
    cases t with
    | none =>
      rw [swipeLineAux]
      have hc : countSome (none :: rest) = countSome rest := by simp [countSome]
      rw [hc]
      exact ⟨(ih acc s).1, fun he => ⟨((ih acc s).2 he).1, by
        rw [((ih acc s).2 he).2]; simp⟩⟩
    | some v =>
      have hc : countSome (some v :: rest) = countSome rest + 1 := by
        simp [countSome]
      rw [swipeLineAux, hc]
      by_cases h : v = acc.getLastD 0
      · rw [if_pos h]
        have hnz := nzlen_merge acc v h.symm
        have hih := ih (acc.dropLast ++ [2 * v, 0]) (s + 2 * v)
        constructor
        · calc nzlen (swipeLineAux (s + 2 * v) (acc.dropLast ++ [2 * v, 0]) rest).1
              ≤ nzlen (acc.dropLast ++ [2 * v, 0]) + countSome rest := hih.1
            _ = nzlen acc + countSome rest := by rw [hnz]
            _ ≤ nzlen acc + (countSome rest + 1) := by omega
        · intro he
          have : nzlen (swipeLineAux (s + 2 * v) (acc.dropLast ++ [2 * v, 0]) rest).1
              ≤ nzlen acc + countSome rest := by
            calc nzlen (swipeLineAux (s + 2 * v) (acc.dropLast ++ [2 * v, 0]) rest).1
                ≤ nzlen (acc.dropLast ++ [2 * v, 0]) + countSome rest := hih.1
              _ = nzlen acc + countSome rest := by rw [hnz]
          omega
      · rw [if_neg h]
        have hih := ih (acc ++ [v]) s
        by_cases hv : v = 0
        · subst hv
          have hnz : nzlen (acc ++ [0]) = nzlen acc := by simp [nzlen]
          constructor
          · calc nzlen (swipeLineAux s (acc ++ [0]) rest).1
                ≤ nzlen (acc ++ [0]) + countSome rest := hih.1
              _ = nzlen acc + countSome rest := by rw [hnz]
              _ ≤ nzlen acc + (countSome rest + 1) := by omega
          · intro he
            have : nzlen (swipeLineAux s (acc ++ [0]) rest).1
                ≤ nzlen acc + countSome rest := by
              calc nzlen (swipeLineAux s (acc ++ [0]) rest).1
                  ≤ nzlen (acc ++ [0]) + countSome rest := hih.1
                _ = nzlen acc + countSome rest := by rw [hnz]
            omega
        · have hnz : nzlen (acc ++ [v]) = nzlen acc + 1 := by
            simp [nzlen, List.filter_append, hv]
          constructor
          · calc nzlen (swipeLineAux s (acc ++ [v]) rest).1
                ≤ nzlen (acc ++ [v]) + countSome rest := hih.1
              _ = nzlen acc + (countSome rest + 1) := by omega
          · intro he
            have he2 : nzlen (swipeLineAux s (acc ++ [v]) rest).1
                = nzlen (acc ++ [v]) + countSome rest := by omega
            refine ⟨(hih.2 he2).1, ?_⟩
            rw [(hih.2 he2).2]
            simp

/-! ## Write-back corollaries -/

theorem lineVals_length_le (line : List Tile) : (lineVals line).length ≤ countSome line := by
  have h := (swipeLineAux_nz line [0] 0).1
  have h0 : nzlen [0] = 0 := rfl
  rw [h0] at h
  simpa [nzlen, swipeLine, lineVals] using h

theorem countSome_le_length (line : List Tile) : countSome line ≤ line.length :=
  List.length_filterMap_le _ _

theorem countSome_packFront (size : Nat) (line : List Tile) :
    countSome (packFront size line) = (lineVals line).length := by
  simp [countSome, packFront]

theorem packFront_length (size : Nat) (line : List Tile)
    (h : (lineVals line).length ≤ size) : (packFront size line).length = size := by
  simp only [packFront, List.length_append, List.length_map, List.length_replicate]
  omega

theorem packBack_length (size : Nat) (line : List Tile)
    (h : (lineVals line.reverse).length ≤ size) : (packBack size line).length = size := by
  rw [packBack, List.length_reverse]
  exact packFront_length size line.reverse h

theorem lineVals_length_le_size (size : Nat) (line : List Tile) (h : line.length ≤ size) :
    (lineVals line).length ≤ size :=
  le_trans (le_trans (lineVals_length_le line) (countSome_le_length line)) h

theorem packFront_eq_self_score (size : Nat) (line : List Tile)
    (h : packFront size line = line) : (swipeLine line).2 = 0 := by
  have hnz : nzlen (swipeLine line).1 = (lineVals line).length := rfl
  have hcs : countSome line = (lineVals line).length := by
    conv_lhs => rw [← h]
    exact countSome_packFront size line
  have h2 := (swipeLineAux_nz line [0] 0).2
  have h0 : nzlen [0] = 0 := rfl
  rw [h0] at h2
  exact (h2 (by rw [show swipeLineAux 0 [0] line = swipeLine line from rfl, hnz]; omega)).1

theorem map_some_filterMap : ∀ (row : List Tile), countSome row = row.length →
    (row.filterMap id).map some = row := by
  intro row
  induction row with
  | nil => intro _; rfl
  | cons t rest ih =>
    cases t with
    | none =>
      intro h
      exfalso
      have hle := countSome_le_length rest
      have hc : countSome ((none : Tile) :: rest) = countSome rest := rfl
      rw [hc, List.length_cons] at h
      omega
    | some v =>
      intro h
      have hfm : List.filterMap id (some v :: rest) = v :: List.filterMap id rest := rfl
      have hc : countSome (some v :: rest) = countSome rest + 1 := by
        simp [countSome, hfm]
      rw [hc, List.length_cons] at h
      rw [hfm, List.map_cons, ih (by omega)]

theorem packFront_full (size : Nat) (line : List Tile) (hlen : line.length = size) :
    packFront size line = line ∨ (none : Tile) ∈ packFront size line := by
  by_cases hm : (lineVals line).length < size
  · right
    refine List.mem_append.mpr (Or.inr ?_)
    exact List.mem_replicate.mpr ⟨by omega, rfl⟩
  · left
    have h1 : (lineVals line).length ≤ countSome line := lineVals_length_le line
    have h2 : countSome line ≤ line.length := countSome_le_length line
    have hm2 : (lineVals line).length = size := by omega
    have hcs : countSome line = size := by omega
    have hnz : nzlen (swipeLine line).1 = (lineVals line).length := rfl
    have h3 := (swipeLineAux_nz line [0] 0).2
    have h0 : nzlen [0] = 0 := rfl
    rw [h0] at h3
    have h4 := h3 (by rw [show swipeLineAux 0 [0] line = swipeLine line from rfl, hnz]; omega)
    have hres : (swipeLine line).1 = [0] ++ line.filterMap id := h4.2
    have hvals : lineVals line = (line.filterMap id).filter (fun n => n ≠ 0) := by
      rw [lineVals, hres]
      simp
    have hfm_len : (line.filterMap id).length = size := by
      rw [show (line.filterMap id).length = countSome line from rfl, hcs]
    have hfilter : (line.filterMap id).filter (fun n => n ≠ 0) = line.filterMap id := by
      refine List.Sublist.eq_of_length (List.filter_sublist _) ?_
      rw [← hvals, hm2, hfm_len]
    have hvals2 : lineVals line = line.filterMap id := by rw [hvals, hfilter]
    rw [packFront, hvals2, hfm_len]
    simp only [Nat.sub_self, List.replicate_zero, List.append_nil]
    exact map_some_filterMap line (by omega)

theorem packBack_eq_self_score (size : Nat) (line : List Tile)
    (h : packBack size line = line) : (swipeLine line.reverse).2 = 0 := by
  have h2 : packFront size line.reverse = line.reverse := by
    have := congrArg List.reverse h
    rwa [packBack, List.reverse_reverse] at this
  exact packFront_eq_self_score size line.reverse h2

theorem packBack_full (size : Nat) (line : List Tile) (hlen : line.length = size) :
    packBack size line = line ∨ (none : Tile) ∈ packBack size line := by
  cases packFront_full size line.reverse (by rw [List.length_reverse]; exact hlen) with
  | inl he =>
    left
    rw [packBack, he, List.reverse_reverse]
  | inr hm =>
    right
    rw [packBack]
    exact List.mem_reverse.mpr hm

/-! ## Grid-level helpers -/

theorem getD_set_self {α : Type} : ∀ (l : List α) (i : Nat) (a d : α), i < l.length →
    (l.set i a).getD i d = a := by
  intro l
  induction l with
  | nil => intro i a d h; simp at h
  | cons b t ih =>
    intro i a d h
    cases i with
    | zero => rfl
    | succ j =>
      rw [List.set_cons_succ, List.getD_cons_succ]
      exact ih j a d (by simpa using h)

theorem getD_set_other {α : Type} : ∀ (l : List α) (i j : Nat) (a d : α), i ≠ j →
    (l.set i a).getD j d = l.getD j d := by
  intro l
  induction l with
  | nil => intro i j a d _; simp [List.set_nil]
  | cons b t ih =>
    intro i j a d hij
    cases i with
    | zero =>
      cases j with
      | zero => exact absurd rfl hij
      | succ j2 => rw [List.set_cons_zero, List.getD_cons_succ, List.getD_cons_succ]
    | succ i2 =>
      cases j with
      | zero => rw [List.set_cons_succ, List.getD_cons_zero, List.getD_cons_zero]
      | succ j2 =>
        rw [List.set_cons_succ, List.getD_cons_succ, List.getD_cons_succ]
        exact ih i2 j2 a d (fun he => hij (by rw [he]))

theorem mem_get_empty_tiles (b : Board) (x y : Nat) :
    (x, y) ∈ b.get_empty_tiles ↔ x < b.size ∧ y < b.size ∧ getTile b.grid x y = none := by
  rw [Board.get_empty_tiles, List.mem_flatMap]
  constructor
  · rintro ⟨y2, hy2, hmem⟩
    rw [List.mem_filterMap] at hmem
    obtain ⟨x2, hx2, heq⟩ := hmem
    by_cases hc : getTile b.grid x2 y2 = none
    · rw [if_pos hc] at heq
      have hxy : x2 = x ∧ y2 = y := by
        constructor <;> [exact congrArg Prod.fst (Option.some.inj heq);
          exact congrArg Prod.snd (Option.some.inj heq)]
      obtain ⟨rfl, rfl⟩ := hxy
      exact ⟨List.mem_range.mp hx2, List.mem_range.mp hy2, hc⟩
    · rw [if_neg hc] at heq
      exact absurd heq (Option.noConfusion)
  · rintro ⟨hx, hy, hcell⟩
    refine ⟨y, List.mem_range.mpr hy, ?_⟩
    rw [List.mem_filterMap]
    exact ⟨x, List.mem_range.mpr hx, by rw [if_pos hcell]⟩

theorem row_set_some (v : Nat) : ∀ (row : List Tile) (x : Nat), x < row.length →
    row.getD x none = none →
    countSome (row.set x (some v)) = countSome row + 1 ∧
      lineSum (row.set x (some v)) = lineSum row + v := by
  intro row
  induction row with
  | nil => intro x h; simp at h
  | cons t rest ih =>
    intro x hx hcell
    cases x with
    | zero =>
      rw [List.getD_cons_zero] at hcell
      subst hcell
      rw [List.set_cons_zero]
      constructor
      · show (List.filterMap id (some v :: rest)).length = (List.filterMap id ((none : Tile) :: rest)).length + 1
        rfl
      · rw [lineSum_cons, lineSum_cons]
        show v + lineSum rest = 0 + lineSum rest + v
        omega
    | succ x2 =>
      rw [List.getD_cons_succ] at hcell
      rw [List.set_cons_succ]
      have hih := ih x2 (by simpa using hx) hcell
      constructor
      · cases t with
        | none =>
          show countSome ((none : Tile) :: rest.set x2 (some v)) = countSome ((none : Tile) :: rest) + 1
          have h1 : countSome ((none : Tile) :: rest.set x2 (some v)) = countSome (rest.set x2 (some v)) := rfl
          have h2 : countSome ((none : Tile) :: rest) = countSome rest := rfl
          rw [h1, h2]; exact hih.1
        | some w =>
          have h1 : countSome (some w :: rest.set x2 (some v)) = countSome (rest.set x2 (some v)) + 1 := rfl
          have h2 : countSome (some w :: rest) = countSome rest + 1 := rfl
          rw [h1, h2, hih.1]
      · rw [lineSum_cons, lineSum_cons, hih.2]
        omega

theorem grid_set_row : ∀ (g : Grid) (y : Nat) (r : List Tile), y < g.length →
    gridSum (g.set y r) + lineSum (g.getD y []) = gridSum g + lineSum r ∧
      gridCount (g.set y r) + countSome (g.getD y []) = gridCount g + countSome r := by
  intro g
  induction g with
  | nil => intro y r h; simp at h
  | cons row rest ih =>
    intro y r hy
    cases y with
    | zero =>
      rw [List.set_cons_zero, List.getD_cons_zero]
      constructor
      · show lineSum r + (rest.map lineSum).sum + lineSum row
            = lineSum row + (rest.map lineSum).sum + lineSum r
        omega
      · show countSome r + (rest.map countSome).sum + countSome row
            = countSome row + (rest.map countSome).sum + countSome r
        omega
    | succ y2 =>
      rw [List.set_cons_succ, List.getD_cons_succ]
      have hih := ih y2 r (by simpa using hy)
      constructor
      · show lineSum row + (((rest.set y2 r).map lineSum).sum) + lineSum (rest.getD y2 [])
            = lineSum row + ((rest.map lineSum).sum) + lineSum r
        have := hih.1
        rw [gridSum, gridSum] at this
        omega
      · show countSome row + (((rest.set y2 r).map countSome).sum) + countSome (rest.getD y2 [])
            = countSome row + ((rest.map countSome).sum) + countSome r
        have := hih.2
        rw [gridCount, gridCount] at this
        omega

theorem setTile_empty (b : Board) (x y v : Nat) (hwf : BoardWF b)
    (hmem : (x, y) ∈ b.get_empty_tiles) :
    gridSum (setTile b.grid x y v) = gridSum b.grid + v ∧
      gridCount (setTile b.grid x y v) = gridCount b.grid + 1 := by
  obtain ⟨hx, hy, hcell⟩ := (mem_get_empty_tiles b x y).mp hmem
  have hylen : y < b.grid.length := by rw [hwf.1]; exact hy
  have hrow : b.grid.getD y [] ∈ b.grid := by
    rw [List.getD_eq_getElem b.grid [] hylen]
    exact List.getElem_mem hylen
  have hrowlen : (b.grid.getD y []).length = b.size := hwf.2 _ hrow
  have hxlen : x < (b.grid.getD y []).length := by rw [hrowlen]; exact hx
  have hcell2 : (b.grid.getD y []).getD x none = none := hcell
  have hrs := row_set_some v (b.grid.getD y []) x hxlen hcell2
  have hgs := grid_set_row b.grid y ((b.grid.getD y []).set x (some v)) hylen
  rw [setTile]
  constructor
  · have h1 := hgs.1
    have h2 := hrs.2
    omega
  · have h1 := hgs.2
    have h2 := hrs.1
    omega

/-! ## Shape and access of the swiped grids -/

theorem getD_mem_of_lt {α : Type} (l : List α) (d : α) (i : Nat) (h : i < l.length) :
    l.getD i d ∈ l := by
  rw [List.getD_eq_getElem l d h]
  exact List.getElem_mem h

theorem grid_eq_range_map (g : Grid) (size : Nat) (h : g.length = size) :
    (List.range size).map (fun y => g.getD y []) = g := by
  subst h
  exact range_map_getD g []

theorem column_length (g : Grid) (x : Nat) : (column g x).length = g.length :=
  List.length_map g _

theorem column_getD (g : Grid) (x y : Nat) (hy : y < g.length) :
    (column g x).getD y none = (g.getD y []).getD x none := by
  rw [column, List.getD_eq_getElem?_getD, List.getElem?_map, List.getElem?_eq_getElem hy]
  rw [List.getD_eq_getElem g [] hy]
  rfl

theorem do_swipe_size (b : Board) (dir : Direction) : (b.do_swipe dir).size = b.size := by
  cases dir <;> rfl

theorem do_swipe_prev (b : Board) (dir : Direction) :
    (b.do_swipe dir).prev_grid = b.prev_grid := by
  cases dir <;> rfl

theorem do_swipe_flag (b : Board) (dir : Direction) :
    (b.do_swipe dir).undo_available = b.undo_available := by
  cases dir <;> rfl

theorem swipe_left_row (b : Board) (y : Nat) (hy : y < b.size) :
    (b.swipe_left).grid.getD y [] = packFront b.size (b.grid.getD y []) :=
  getD_range_map b.size _ y [] hy

theorem swipe_right_row (b : Board) (y : Nat) (hy : y < b.size) :
    (b.swipe_right).grid.getD y [] = packBack b.size (b.grid.getD y []) :=
  getD_range_map b.size _ y [] hy

theorem swipe_up_column (b : Board) (x : Nat) (h1 : b.grid.length = b.size) (hx : x < b.size) :
    column (b.swipe_up).grid x = packFront b.size (column b.grid x) := by
  have hlen : (lineVals (column b.grid x)).length ≤ b.size :=
    lineVals_length_le_size _ _ (by rw [column_length, h1])
  have hplen : (packFront b.size (column b.grid x)).length = b.size :=
    packFront_length _ _ hlen
  show ((List.range b.size).map (fun y => (List.range b.size).map (fun x2 =>
      (packFront b.size (column b.grid x2)).getD y none))).map (fun row => row.getD x none)
    = packFront b.size (column b.grid x)
  rw [List.map_map]
  have hfun : ((fun row => row.getD x none) ∘ (fun y => (List.range b.size).map (fun x2 =>
      (packFront b.size (column b.grid x2)).getD y none)))
      = fun y => (packFront b.size (column b.grid x)).getD y none := by
    funext y
    exact getD_range_map b.size _ x none hx
  rw [hfun]
  have h2 := range_map_getD (packFront b.size (column b.grid x)) (none : Tile)
  rw [hplen] at h2
  exact h2

theorem swipe_down_column (b : Board) (x : Nat) (h1 : b.grid.length = b.size) (hx : x < b.size) :
    column (b.swipe_down).grid x = packBack b.size (column b.grid x) := by
  have hlen : (lineVals (column b.grid x).reverse).length ≤ b.size :=
    lineVals_length_le_size _ _ (by rw [List.length_reverse, column_length, h1])
  have hplen : (packBack b.size (column b.grid x)).length = b.size :=
    packBack_length _ _ hlen
  show ((List.range b.size).map (fun y => (List.range b.size).map (fun x2 =>
      (packBack b.size (column b.grid x2)).getD y none))).map (fun row => row.getD x none)
    = packBack b.size (column b.grid x)
  rw [List.map_map]
  have hfun : ((fun row => row.getD x none) ∘ (fun y => (List.range b.size).map (fun x2 =>
      (packBack b.size (column b.grid x2)).getD y none)))
      = fun y => (packBack b.size (column b.grid x)).getD y none := by
    funext y
    exact getD_range_map b.size _ x none hx
  rw [hfun]
  have h2 := range_map_getD (packBack b.size (column b.grid x)) (none : Tile)
  rw [hplen] at h2
  exact h2

theorem swipe_WF (b : Board) (dir : Direction) (hwf : BoardWF b) : BoardWF (b.do_swipe dir) := by
  obtain ⟨h1, h2⟩ := hwf
  cases dir with
  | l =>
    refine ⟨by simp [Board.do_swipe, Board.swipe_left], ?_⟩
    intro r hr
    rw [show (b.do_swipe Direction.l).grid
        = (List.range b.size).map (fun y => packFront b.size (b.grid.getD y [])) from rfl] at hr
    obtain ⟨y, hy, rfl⟩ := List.mem_map.mp hr
    rw [do_swipe_size]
    refine packFront_length _ _ (lineVals_length_le_size _ _ ?_)
    rw [h2 _ (getD_mem_of_lt b.grid [] y (by rw [h1]; exact List.mem_range.mp hy))]
  | r =>
    refine ⟨by simp [Board.do_swipe, Board.swipe_right], ?_⟩
    intro r hr
    rw [show (b.do_swipe Direction.r).grid
        = (List.range b.size).map (fun y => packBack b.size (b.grid.getD y [])) from rfl] at hr
    obtain ⟨y, hy, rfl⟩ := List.mem_map.mp hr
    rw [do_swipe_size]
    refine packBack_length _ _ (lineVals_length_le_size _ _ ?_)
    rw [List.length_reverse]
    rw [h2 _ (getD_mem_of_lt b.grid [] y (by rw [h1]; exact List.mem_range.mp hy))]
  | u =>
    refine ⟨by simp [Board.do_swipe, Board.swipe_up], ?_⟩
    intro r hr
    rw [show (b.do_swipe Direction.u).grid
        = (List.range b.size).map (fun y => (List.range b.size).map (fun x =>
            (packFront b.size (column b.grid x)).getD y none)) from rfl] at hr
    obtain ⟨y, hy, rfl⟩ := List.mem_map.mp hr
    rw [do_swipe_size]
    simp
  | d =>
    refine ⟨by simp [Board.do_swipe, Board.swipe_down], ?_⟩
    intro r hr
    rw [show (b.do_swipe Direction.d).grid
        = (List.range b.size).map (fun y => (List.range b.size).map (fun x =>
            (packBack b.size (column b.grid x)).getD y none)) from rfl] at hr
    obtain ⟨y, hy, rfl⟩ := List.mem_map.mp hr
    rw [do_swipe_size]
    simp

/-! ## Sum conservation at grid level -/

theorem list_range_map_sum (n : Nat) (f : Nat → Nat) :
    ((List.range n).map f).sum = Finset.sum (Finset.range n) f := by
  induction n with
  | zero => rfl
  | succ m ih =>
    rw [Finset.sum_range_succ, List.range_succ, List.map_append, List.sum_append, ih]
    simp

theorem range_sum_swap (n : Nat) (f : Nat → Nat → Nat) :
    ((List.range n).map (fun y => ((List.range n).map (fun x => f x y)).sum)).sum
      = ((List.range n).map (fun x => ((List.range n).map (fun y => f x y)).sum)).sum := by
  simp only [list_range_map_sum]
  exact Finset.sum_comm

theorem lineSum_eq_range (size : Nat) (row : List Tile) (h : row.length = size) :
    lineSum row = ((List.range size).map (fun x => tval (row.getD x none))).sum := by
  have h2 := range_map_getD row (none : Tile)
  rw [h] at h2
  conv_lhs => rw [lineSum, ← h2]
  rw [List.map_map]
  rfl

theorem gridSum_eq_range (g : Grid) (size : Nat) (h : g.length = size) :
    ((List.range size).map (fun y => lineSum (g.getD y []))).sum = gridSum g := by
  rw [gridSum]
  conv_rhs => rw [← grid_eq_range_map g size h]
  rw [List.map_map]
  rfl

theorem gridSum_swipe_left (b : Board) (h1 : b.grid.length = b.size) :
    gridSum (b.swipe_left).grid = gridSum b.grid := by
  show gridSum ((List.range b.size).map (fun y => packFront b.size (b.grid.getD y []))) = _
  rw [gridSum, List.map_map]
  have hfun : (lineSum ∘ fun y => packFront b.size (b.grid.getD y []))
      = fun y => lineSum (b.grid.getD y []) := by
    funext y
    exact lineSum_packFront _ _
  rw [hfun, gridSum_eq_range b.grid b.size h1]

theorem gridSum_swipe_right (b : Board) (h1 : b.grid.length = b.size) :
    gridSum (b.swipe_right).grid = gridSum b.grid := by
  show gridSum ((List.range b.size).map (fun y => packBack b.size (b.grid.getD y []))) = _
  rw [gridSum, List.map_map]
  have hfun : (lineSum ∘ fun y => packBack b.size (b.grid.getD y []))
      = fun y => lineSum (b.grid.getD y []) := by
    funext y
    exact lineSum_packBack _ _
  rw [hfun, gridSum_eq_range b.grid b.size h1]

theorem grid_column_sum (b : Board) (h1 : b.grid.length = b.size)
    (h2 : ∀ r ∈ b.grid, r.length = b.size) :
    ((List.range b.size).map (fun x => lineSum (column b.grid x))).sum = gridSum b.grid := by
  have hstep : (List.range b.size).map (fun x => lineSum (column b.grid x))
      = (List.range b.size).map (fun x =>
          ((List.range b.size).map (fun y => tval ((column b.grid x).getD y none))).sum) := by
    refine List.map_congr_left ?_
    intro x _
    exact lineSum_eq_range b.size _ (by rw [column_length, h1])
  rw [hstep, ← range_sum_swap]
  have hback : (List.range b.size).map (fun y =>
        ((List.range b.size).map (fun x => tval ((column b.grid x).getD y none))).sum)
      = (List.range b.size).map (fun y => lineSum (b.grid.getD y [])) := by
    refine List.map_congr_left ?_
    intro y hy
    have hy2 : y < b.grid.length := by rw [h1]; exact List.mem_range.mp hy
    have hcell : (fun x => tval ((column b.grid x).getD y none))
        = fun x => tval ((b.grid.getD y []).getD x none) := by
      funext x
      rw [column_getD b.grid x y hy2]
    rw [hcell]
    exact (lineSum_eq_range b.size (b.grid.getD y [])
      (h2 _ (getD_mem_of_lt b.grid [] y hy2))).symm
  rw [hback, gridSum_eq_range b.grid b.size h1]

theorem gridSum_swipe_up (b : Board) (hwf : BoardWF b) :
    gridSum (b.swipe_up).grid = gridSum b.grid := by
  obtain ⟨h1, h2⟩ := hwf
  show gridSum ((List.range b.size).map (fun y => (List.range b.size).map (fun x =>
      (packFront b.size (column b.grid x)).getD y none))) = _
  rw [gridSum, List.map_map]
  have hrow : (lineSum ∘ fun y => (List.range b.size).map (fun x =>
      (packFront b.size (column b.grid x)).getD y none))
      = fun y => ((List.range b.size).map (fun x =>
          tval ((packFront b.size (column b.grid x)).getD y none))).sum := by
    funext y
    show lineSum _ = _
    rw [lineSum, List.map_map]
    rfl
  rw [hrow, range_sum_swap]
  have hcol : (List.range b.size).map (fun x => ((List.range b.size).map (fun y =>
        tval ((packFront b.size (column b.grid x)).getD y none))).sum)
      = (List.range b.size).map (fun x => lineSum (column b.grid x)) := by
    refine List.map_congr_left ?_
    intro x _
    rw [← lineSum_eq_range b.size (packFront b.size (column b.grid x))
      (packFront_length _ _ (lineVals_length_le_size _ _ (by rw [column_length, h1])))]
    exact lineSum_packFront _ _
  rw [hcol, grid_column_sum b h1 h2]

theorem gridSum_swipe_down (b : Board) (hwf : BoardWF b) :
    gridSum (b.swipe_down).grid = gridSum b.grid := by
  obtain ⟨h1, h2⟩ := hwf
  show gridSum ((List.range b.size).map (fun y => (List.range b.size).map (fun x =>
      (packBack b.size (column b.grid x)).getD y none))) = _
  rw [gridSum, List.map_map]
  have hrow : (lineSum ∘ fun y => (List.range b.size).map (fun x =>
      (packBack b.size (column b.grid x)).getD y none))
      = fun y => ((List.range b.size).map (fun x =>
          tval ((packBack b.size (column b.grid x)).getD y none))).sum := by
    funext y
    show lineSum _ = _
    rw [lineSum, List.map_map]
    rfl
  rw [hrow, range_sum_swap]
  have hcol : (List.range b.size).map (fun x => ((List.range b.size).map (fun y =>
        tval ((packBack b.size (column b.grid x)).getD y none))).sum)
      = (List.range b.size).map (fun x => lineSum (column b.grid x)) := by
    refine List.map_congr_left ?_
    intro x _
    rw [← lineSum_eq_range b.size (packBack b.size (column b.grid x))
      (packBack_length _ _ (lineVals_length_le_size _ _
        (by rw [List.length_reverse, column_length, h1])))]
    exact lineSum_packBack _ _
  rw [hcol, grid_column_sum b h1 h2]

theorem gridSum_do_swipe (b : Board) (dir : Direction) (hwf : BoardWF b) :
    gridSum (b.do_swipe dir).grid = gridSum b.grid := by
  cases dir with
  | l => exact gridSum_swipe_left b hwf.1
  | r => exact gridSum_swipe_right b hwf.1
  | u => exact gridSum_swipe_up b hwf
  | d => exact gridSum_swipe_down b hwf

/-! ## No-op swipes gain no score; full results are no-ops -/

theorem swipe_left_score_eq (b : Board) (hgrid : (b.swipe_left).grid = b.grid) :
    (b.swipe_left).score = b.score := by
  show b.score + ((List.range b.size).map (fun y => (swipeLine (b.grid.getD y [])).2)).sum = b.score
  have hz : ∀ t ∈ (List.range b.size).map (fun y => (swipeLine (b.grid.getD y [])).2), t = 0 := by
    intro t ht
    obtain ⟨y, hy, rfl⟩ := List.mem_map.mp ht
    have hrow := swipe_left_row b y (List.mem_range.mp hy)
    rw [hgrid] at hrow
    exact packFront_eq_self_score _ _ hrow.symm
  rw [List.sum_eq_zero hz]
  omega

theorem swipe_right_score_eq (b : Board) (hgrid : (b.swipe_right).grid = b.grid) :
    (b.swipe_right).score = b.score := by
  show b.score + ((List.range b.size).map (fun y => (swipeLine (b.grid.getD y []).reverse).2)).sum = b.score
  have hz : ∀ t ∈ (List.range b.size).map (fun y => (swipeLine (b.grid.getD y []).reverse).2), t = 0 := by
    intro t ht
    obtain ⟨y, hy, rfl⟩ := List.mem_map.mp ht
    have hrow := swipe_right_row b y (List.mem_range.mp hy)
    rw [hgrid] at hrow
    exact packBack_eq_self_score _ _ hrow.symm
  rw [List.sum_eq_zero hz]
  omega

theorem swipe_up_score_eq (b : Board) (h1 : b.grid.length = b.size)
    (hgrid : (b.swipe_up).grid = b.grid) : (b.swipe_up).score = b.score := by
  show b.score + ((List.range b.size).map (fun x => (swipeLine (column b.grid x)).2)).sum = b.score
  have hz : ∀ t ∈ (List.range b.size).map (fun x => (swipeLine (column b.grid x)).2), t = 0 := by
    intro t ht
    obtain ⟨x, hx, rfl⟩ := List.mem_map.mp ht
    have hcol := swipe_up_column b x h1 (List.mem_range.mp hx)
    rw [hgrid] at hcol
    exact packFront_eq_self_score _ _ hcol.symm
  rw [List.sum_eq_zero hz]
  omega

theorem swipe_down_score_eq (b : Board) (h1 : b.grid.length = b.size)
    (hgrid : (b.swipe_down).grid = b.grid) : (b.swipe_down).score = b.score := by
  show b.score + ((List.range b.size).map (fun x => (swipeLine (column b.grid x).reverse).2)).sum = b.score
  have hz : ∀ t ∈ (List.range b.size).map (fun x => (swipeLine (column b.grid x).reverse).2), t = 0 := by
    intro t ht
    obtain ⟨x, hx, rfl⟩ := List.mem_map.mp ht
    have hcol := swipe_down_column b x h1 (List.mem_range.mp hx)
    rw [hgrid] at hcol
    exact packBack_eq_self_score _ _ hcol.symm
  rw [List.sum_eq_zero hz]
  omega

theorem do_swipe_score_eq (b : Board) (dir : Direction) (h1 : b.grid.length = b.size)
    (hgrid : (b.do_swipe dir).grid = b.grid) : (b.do_swipe dir).score = b.score := by
  cases dir with
  | l => exact swipe_left_score_eq b hgrid
  | r => exact swipe_right_score_eq b hgrid
  | u => exact swipe_up_score_eq b h1 hgrid
  | d => exact swipe_down_score_eq b h1 hgrid

theorem exists_getD_none (l : List Tile) (h : (none : Tile) ∈ l) :
    ∃ i, i < l.length ∧ l.getD i none = none := by
  obtain ⟨i, hi, he⟩ := List.mem_iff_getElem.mp h
  exact ⟨i, hi, by rw [List.getD_eq_getElem l none hi, he]⟩

theorem swipe_left_full (b : Board) (hwf : BoardWF b)
    (hfull : ∀ x y, x < b.size → y < b.size → getTile (b.swipe_left).grid x y ≠ none) :
    (b.swipe_left).grid = b.grid := by
  obtain ⟨h1, h2⟩ := hwf
  have hrow : ∀ y ∈ List.range b.size,
      packFront b.size (b.grid.getD y []) = b.grid.getD y [] := by
    intro y hy
    have hy2 : y < b.size := List.mem_range.mp hy
    have hlen : (b.grid.getD y []).length = b.size :=
      h2 _ (getD_mem_of_lt _ _ _ (by rw [h1]; exact hy2))
    cases packFront_full b.size (b.grid.getD y []) hlen with
    | inl he => exact he
    | inr hnone =>
      exfalso
      have hplen : (packFront b.size (b.grid.getD y [])).length = b.size :=
        packFront_length _ _ (lineVals_length_le_size _ _ (le_of_eq hlen))
      obtain ⟨x, hx, hcell⟩ := exists_getD_none _ hnone
      rw [hplen] at hx
      refine hfull x y hx hy2 ?_
      rw [getTile, swipe_left_row b y hy2]
      exact hcell
  show (List.range b.size).map (fun y => packFront b.size (b.grid.getD y [])) = b.grid
  rw [List.map_congr_left hrow, grid_eq_range_map b.grid b.size h1]

theorem swipe_right_full (b : Board) (hwf : BoardWF b)
    (hfull : ∀ x y, x < b.size → y < b.size → getTile (b.swipe_right).grid x y ≠ none) :
    (b.swipe_right).grid = b.grid := by
  obtain ⟨h1, h2⟩ := hwf
  have hrow : ∀ y ∈ List.range b.size,
      packBack b.size (b.grid.getD y []) = b.grid.getD y [] := by
    intro y hy
    have hy2 : y < b.size := List.mem_range.mp hy
    have hlen : (b.grid.getD y []).length = b.size :=
      h2 _ (getD_mem_of_lt _ _ _ (by rw [h1]; exact hy2))
    cases packBack_full b.size (b.grid.getD y []) hlen with
    | inl he => exact he
    | inr hnone =>
      exfalso
      have hplen : (packBack b.size (b.grid.getD y [])).length = b.size :=
        packBack_length _ _ (lineVals_length_le_size _ _
          (by rw [List.length_reverse]; exact le_of_eq hlen))
      obtain ⟨x, hx, hcell⟩ := exists_getD_none _ hnone
      rw [hplen] at hx
      refine hfull x y hx hy2 ?_
      rw [getTile, swipe_right_row b y hy2]
      exact hcell
  show (List.range b.size).map (fun y => packBack b.size (b.grid.getD y [])) = b.grid
  rw [List.map_congr_left hrow, grid_eq_range_map b.grid b.size h1]

theorem swipe_up_full (b : Board) (hwf : BoardWF b)
    (hfull : ∀ x y, x < b.size → y < b.size → getTile (b.swipe_up).grid x y ≠ none) :
    (b.swipe_up).grid = b.grid := by
  obtain ⟨h1, h2⟩ := hwf
  have hglen : (b.swipe_up).grid.length = b.size := by
    show ((List.range b.size).map _).length = b.size
    simp
  have hcol : ∀ x, x < b.size → packFront b.size (column b.grid x) = column b.grid x := by
    intro x hx
    have hlen : (column b.grid x).length = b.size := by rw [column_length, h1]
    cases packFront_full b.size (column b.grid x) hlen with
    | inl he => exact he
    | inr hnone =>
      exfalso
      have hpc := swipe_up_column b x h1 hx
      rw [← hpc] at hnone
      obtain ⟨y, hy, hcell⟩ := exists_getD_none _ hnone
      rw [column_length, hglen] at hy
      refine hfull x y hx hy ?_
      rw [getTile, ← column_getD (b.swipe_up).grid x y (by rw [hglen]; exact hy)]
      exact hcell
  have hrows : ∀ y ∈ List.range b.size,
      (List.range b.size).map (fun x => (packFront b.size (column b.grid x)).getD y none)
        = b.grid.getD y [] := by
    intro y hy
    have hy2 : y < b.grid.length := by rw [h1]; exact List.mem_range.mp hy
    have hstep : (List.range b.size).map (fun x =>
          (packFront b.size (column b.grid x)).getD y none)
        = (List.range b.size).map (fun x => (b.grid.getD y []).getD x none) := by
      refine List.map_congr_left ?_
      intro x hx
      rw [hcol x (List.mem_range.mp hx), column_getD b.grid x y hy2]
    rw [hstep]
    have hrm := range_map_getD (b.grid.getD y []) (none : Tile)
    rw [h2 _ (getD_mem_of_lt _ _ _ hy2)] at hrm
    exact hrm
  show (List.range b.size).map (fun y => (List.range b.size).map (fun x =>
      (packFront b.size (column b.grid x)).getD y none)) = b.grid
  rw [List.map_congr_left hrows, grid_eq_range_map b.grid b.size h1]

theorem swipe_down_full (b : Board) (hwf : BoardWF b)
    (hfull : ∀ x y, x < b.size → y < b.size → getTile (b.swipe_down).grid x y ≠ none) :
    (b.swipe_down).grid = b.grid := by
  obtain ⟨h1, h2⟩ := hwf
  have hglen : (b.swipe_down).grid.length = b.size := by
    show ((List.range b.size).map _).length = b.size
    simp
  have hcol : ∀ x, x < b.size → packBack b.size (column b.grid x) = column b.grid x := by
    intro x hx
    have hlen : (column b.grid x).length = b.size := by rw [column_length, h1]
    cases packBack_full b.size (column b.grid x) hlen with
    | inl he => exact he
    | inr hnone =>
      exfalso
      have hpc := swipe_down_column b x h1 hx
      rw [← hpc] at hnone
      obtain ⟨y, hy, hcell⟩ := exists_getD_none _ hnone
      rw [column_length, hglen] at hy
      refine hfull x y hx hy ?_
      rw [getTile, ← column_getD (b.swipe_down).grid x y (by rw [hglen]; exact hy)]
      exact hcell
  have hrows : ∀ y ∈ List.range b.size,
      (List.range b.size).map (fun x => (packBack b.size (column b.grid x)).getD y none)
        = b.grid.getD y [] := by
    intro y hy
    have hy2 : y < b.grid.length := by rw [h1]; exact List.mem_range.mp hy
    have hstep : (List.range b.size).map (fun x =>
          (packBack b.size (column b.grid x)).getD y none)
        = (List.range b.size).map (fun x => (b.grid.getD y []).getD x none) := by
      refine List.map_congr_left ?_
      intro x hx
      rw [hcol x (List.mem_range.mp hx), column_getD b.grid x y hy2]
    rw [hstep]
    have hrm := range_map_getD (b.grid.getD y []) (none : Tile)
    rw [h2 _ (getD_mem_of_lt _ _ _ hy2)] at hrm
    exact hrm
  show (List.range b.size).map (fun y => (List.range b.size).map (fun x =>
      (packBack b.size (column b.grid x)).getD y none)) = b.grid
  rw [List.map_congr_left hrows, grid_eq_range_map b.grid b.size h1]

theorem do_swipe_full (b : Board) (dir : Direction) (hwf : BoardWF b)
    (hfull : ∀ x y, x < b.size → y < b.size → getTile (b.do_swipe dir).grid x y ≠ none) :
    (b.do_swipe dir).grid = b.grid := by
  cases dir with
  | l => exact swipe_left_full b hwf hfull
  | r => exact swipe_right_full b hwf hfull
  | u => exact swipe_up_full b hwf hfull
  | d => exact swipe_down_full b hwf hfull

/-! ## Claim theorems -/

/-- C10: board construction has the unstated precondition `size ≥ 1`: the
constructor evaluates `(392 - 8*size)/size`, so `Board(0)` fails with a
division-by-zero error instead of producing an empty board, while for every
`size ≥ 1` construction succeeds with an all-empty `size × size` grid, score
0, and undo unavailable. -/
theorem claim_C10_init (n : Nat) (h : 1 ≤ n) :
    Board.init 0 = Except.error "ZeroDivisionError" ∧
      Board.init n = Except.ok
        (Board.mk n (List.replicate n (List.replicate n none)) none false 0) := by
  refine ⟨rfl, ?_⟩
  rw [Board.init, if_neg (by omega)]

theorem claim_C10_init_witness :
    1 ≤ 3 ∧ (Board.init 0 = Except.error "ZeroDivisionError" ∧
      Board.init 3 = Except.ok
        (Board.mk 3 (List.replicate 3 (List.replicate 3 none)) none false 0)) :=
  ⟨by decide, claim_C10_init 3 (by decide)⟩

/-- C5: when `undo_available` is true, `undo` replaces the live grid with the
stored pre-move snapshot and clears the flag, while the score (and the stored
snapshot itself) are untouched; when the flag is false `undo` is a complete
no-op, so a second consecutive `undo` changes nothing. -/
theorem claim_C5_undo (b : Board) (pg : Grid) :
    (b.undo_available = true → b.prev_grid = some pg →
      b.undo.grid = pg ∧ b.undo.undo_available = false ∧ b.undo.score = b.score ∧
        b.undo.prev_grid = b.prev_grid ∧ b.undo.size = b.size) ∧
    (b.undo_available = false → b.undo = b) ∧
    b.undo.undo = b.undo := by
  refine ⟨?_, ?_, ?_⟩
  · intro hav hpg
    simp [Board.undo, hav, hpg]
  · intro hav
    simp [Board.undo, hav]
  · by_cases hav : b.undo_available = true
    · simp [Board.undo, hav]
    · simp [Board.undo, hav]

theorem claim_C5_undo_witness :
    exUndo.undo.grid = [[some 2, none], [none, none]] ∧
      exUndo.undo.undo_available = false ∧ exUndo.undo.score = exUndo.score ∧
      exUndo.undo.prev_grid = exUndo.prev_grid ∧ exUndo.undo.size = exUndo.size :=
  (claim_C5_undo exUndo [[some 2, none], [none, none]]).1 rfl rfl

/-- C2: swiping right a row holding `[2, 4, 2, 2]` turns it into
`[empty, 2, 4, 4]` and increases the score by exactly 4: scanning from the
right, the rightmost pair of 2s merges into a 4, which does not merge with
the 4, and the leading 2 does not merge either. -/
theorem claim_C2_swipe_right (s : Nat) :
    ((exRow2422 s).swipe_right).grid
        = [[none, some 2, some 4, some 4],
           [none, none, none, none],
           [none, none, none, none],
           [none, none, none, none]] ∧
      ((exRow2422 s).swipe_right).score = s + 4 :=
  ⟨rfl, rfl⟩

/-- C1 (code bug): on the full 2×2 board with pairwise distinct values the
spec-side predicate holds (grid full, no two 4-neighbor-adjacent cells share
a value) yet `is_game_over` returns `false`.  `_get_adjacent_tiles` reads
`grid[y][y+1]` instead of `grid[y+1][x]`, so the value of cell `(1, 0)` is
listed among its own neighbors and is always "equal to an adjacent tile". -/
theorem claim_C1_game_over_bug :
    game_over_spec exFull2 = true ∧ exFull2.is_game_over = false ∧
      getTile exFull2.grid 1 0 ∈ exFull2.get_adjacent_tiles 1 0 := by
  decide

/-- C4: for every swipe direction and every line the swipe acts on (row for
left/right, column for up/down), the sum of the tile values on that line
after the compaction-and-merge pass equals the sum before it (the spawn of a
new tile happens only later, in `perform_move`). -/
theorem claim_C4_line_sum (b : Board) (dir : Direction) (i : Nat)
    (hwf : BoardWF b) (hi : i < b.size) :
    lineSum (lineOf (b.do_swipe dir) dir i) = lineSum (lineOf b dir i) := by
  cases dir with
  | l =>
    show lineSum ((b.swipe_left).grid.getD i []) = lineSum (b.grid.getD i [])
    rw [swipe_left_row b i hi]
    exact lineSum_packFront _ _
  | r =>
    show lineSum ((b.swipe_right).grid.getD i []) = lineSum (b.grid.getD i [])
    rw [swipe_right_row b i hi]
    exact lineSum_packBack _ _
  | u =>
    show lineSum (column (b.swipe_up).grid i) = lineSum (column b.grid i)
    rw [swipe_up_column b i hwf.1 hi]
    exact lineSum_packFront _ _
  | d =>
    show lineSum (column (b.swipe_down).grid i) = lineSum (column b.grid i)
    rw [swipe_down_column b i hwf.1 hi]
    exact lineSum_packBack _ _

theorem claim_C4_line_sum_witness :
    BoardWF (exRow2422 0) ∧ 0 < (exRow2422 0).size ∧
      lineSum (lineOf ((exRow2422 0).do_swipe Direction.r) Direction.r 0)
        = lineSum (lineOf (exRow2422 0) Direction.r 0) :=
  ⟨⟨by decide, by decide⟩, by decide,
    claim_C4_line_sum (exRow2422 0) Direction.r 0 ⟨by decide, by decide⟩ (by decide)⟩

/-- The nonzero output of the scan loop is the greedy single-merge pass over
the occupied cells, with the last accumulator entry still pending. -/
theorem swipeLineAux_merge_line : ∀ (tiles : List Tile) (acc : List Nat) (s : Nat),
    (∀ v, some v ∈ tiles → 0 < v) → acc ≠ [] →
    ((swipeLineAux s acc tiles).1).filter (fun n => n ≠ 0)
      = acc.dropLast.filter (fun n => n ≠ 0)
          ++ merge_line (acc.getLastD 0) (tiles.filterMap id) := by
  intro tiles
  induction tiles with
  | nil =>
    intro acc s hpos hne
    show acc.filter (fun n => n ≠ 0) = _
    cases acc.eq_nil_or_concat with
    | inl h => exact absurd h hne
    | inr h =>
      obtain ⟨l2, b, rfl⟩ := h
      rw [List.concat_eq_append, List.dropLast_concat, List.getLastD_concat,
        List.filterMap_nil, merge_line, List.filter_append]
      by_cases hb : b = 0
      · subst hb; simp
      · simp [hb]
  | cons t rest ih =>
    intro acc s hpos hne
    cases t with
    | none =>
      rw [swipeLineAux, show List.filterMap id (none :: rest) = List.filterMap id rest from rfl]
      exact ih acc s (fun v hv => hpos v (List.mem_cons_of_mem _ hv)) hne
    | some v =>
      have hv : 0 < v := hpos v (List.mem_cons_self _ _)
      rw [swipeLineAux, show List.filterMap id (some v :: rest) = v :: List.filterMap id rest from rfl]
      by_cases h : v = acc.getLastD 0
      · rw [if_pos h]
        rw [ih (acc.dropLast ++ [2 * v, 0]) (s + 2 * v)
          (fun w hw => hpos w (List.mem_cons_of_mem _ hw)) (by simp)]
        have hsplit : acc.dropLast ++ [2 * v, 0] = (acc.dropLast ++ [2 * v]) ++ [0] := by
          rw [List.append_assoc]
          rfl
        rw [hsplit, List.dropLast_concat, List.getLastD_concat]
        rw [merge_line, if_pos h, ← h]
        have h3 : List.filter (fun n => n ≠ 0) [2 * v] = [2 * v] := by
          have : ¬(2 * v = 0) := by omega
          simp [this]
        rw [List.filter_append, h3, List.append_assoc]
        rfl
      · rw [if_neg h]
        rw [ih (acc ++ [v]) s (fun w hw => hpos w (List.mem_cons_of_mem _ hw)) (by simp)]
        rw [List.dropLast_concat, List.getLastD_concat]
        rw [merge_line, if_neg h]
        cases acc.eq_nil_or_concat with
        | inl hnil => exact absurd hnil hne
        | inr hcon =>
          obtain ⟨l2, b, rfl⟩ := hcon
          rw [List.concat_eq_append, List.dropLast_concat, List.getLastD_concat,
            List.filter_append, List.append_assoc]
          by_cases hb : b = 0
          · subst hb; simp
          · simp [hb]

/-- The greedy single-merge pass satisfies the spec relation `MergedOnce`,
both with nothing pending and with a positive pending value. -/
theorem merge_line_mergedOnce : ∀ (vs : List Nat), (∀ v ∈ vs, 0 < v) →
    MergedOnce vs (merge_line 0 vs) ∧
      ∀ w, 0 < w → MergedOnce (w :: vs) (merge_line w vs) := by
  intro vs
  induction vs with
  | nil =>
    intro _
    constructor
    · rw [merge_line, if_pos rfl]
      exact MergedOnce.nil
    · intro w hw
      rw [merge_line, if_neg (by omega)]
      exact MergedOnce.keep w [] [] MergedOnce.nil
  | cons u t ih =>
    intro h
    have hu : 0 < u := h u (List.mem_cons_self _ _)
    have ht : ∀ v ∈ t, 0 < v := fun v hv => h v (List.mem_cons_of_mem _ hv)
    have iht := ih ht
    constructor
    · rw [merge_line, if_neg (by omega), if_pos rfl, List.nil_append]
      exact iht.2 u hu
    · intro w hw
      rw [merge_line]
      by_cases he : u = w
      · rw [if_pos he]
        subst he
        exact MergedOnce.merge u t _ iht.1
      · rw [if_neg he, if_neg (by omega)]
        rw [List.singleton_append]
        exact MergedOnce.keep w (u :: t) _ (iht.2 u hu)

/-- C3: within a single move no tile participates in more than one merge:
the occupied cells written back to a line are related to the occupied input
cells by `MergedOnce`, which merges each tile at most once (a merged output
slot never merges again with a later equal tile).  In particular a row
`[2, 2, 2, 2]` swiped left becomes `[4, 4, empty, empty]`, not `[8, …]`,
with the score increased by 8. -/
theorem claim_C3_single_merge :
    (∀ (sz : Nat) (row : List Tile), (∀ v, some v ∈ row → 0 < v) →
        MergedOnce (row.filterMap id) ((packFront sz row).filterMap id)) ∧
      (exRow2222.swipe_left).grid
          = [[some 4, some 4, none, none],
             [none, none, none, none],
             [none, none, none, none],
             [none, none, none, none]] ∧
      (exRow2222.swipe_left).score = 8 := by
  refine ⟨?_, rfl, rfl⟩
  intro sz row hpos
  have hfm : (packFront sz row).filterMap id = lineVals row := by
    simp [packFront]
  rw [hfm]
  have hlv : lineVals row = merge_line 0 (row.filterMap id) := by
    have hml := swipeLineAux_merge_line row [0] 0 hpos (by simp)
    rw [show ([0] : List Nat).dropLast = [] from rfl,
      show ([0] : List Nat).getLastD 0 = 0 from rfl, List.filter_nil, List.nil_append] at hml
    exact hml
  rw [hlv]
  refine (merge_line_mergedOnce (row.filterMap id) ?_).1
  intro v hv
  obtain ⟨a, ha, hav⟩ := List.mem_filterMap.mp hv
  have : a = some v := hav
  subst this
  exact hpos v ha

theorem claim_C3_single_merge_witness :
    MergedOnce ([some 2, some 2, some 2, some 2].filterMap id)
      ((packFront 4 [some 2, some 2, some 2, some 2]).filterMap id) :=
  claim_C3_single_merge.1 4 [some 2, some 2, some 2, some 2]
    (by intro v hv; simp at hv; omega)

theorem getTile_setTile_self (g : Grid) (x y v : Nat) (hy : y < g.length)
    (hx : x < (g.getD y []).length) : getTile (setTile g x y v) x y = some v := by
  rw [getTile, setTile, getD_set_self _ _ _ _ hy, getD_set_self _ _ _ _ hx]

theorem getTile_setTile_other_row (g : Grid) (x y v x2 y2 : Nat) (h : ¬(y = y2)) :
    getTile (setTile g x y v) x2 y2 = getTile g x2 y2 := by
  rw [getTile, setTile, getD_set_other _ _ _ _ _ h, getTile]

theorem getTile_setTile_other_col (g : Grid) (x y v x2 : Nat) (hy : y < g.length)
    (h : ¬(x = x2)) : getTile (setTile g x y v) x2 y = getTile g x2 y := by
  rw [getTile, setTile, getD_set_self _ _ _ _ hy, getD_set_other _ _ _ _ _ h, getTile]

/-- C8: for every outcome of the random source, `add_tile` on a board with at
least one empty cell writes the value 2 or the value 4 into a cell chosen
from the list of all empty cells (hence a previously empty cell, never an
occupied one), and leaves every other cell and all other board fields
unchanged. -/
theorem claim_C8_add_tile (b : Board) (coin : Bool) (k : Nat)
    (hwf : BoardWF b) (hne : b.get_empty_tiles ≠ []) :
    ∃ b2 x y, b.add_tile coin k = some b2 ∧
      (x, y) ∈ b.get_empty_tiles ∧ getTile b.grid x y = none ∧
      (getTile b2.grid x y = some 2 ∨ getTile b2.grid x y = some 4) ∧
      (∀ x2 y2, ¬(x2 = x ∧ y2 = y) → getTile b2.grid x2 y2 = getTile b.grid x2 y2) ∧
      b2.score = b.score ∧ b2.prev_grid = b.prev_grid ∧
      b2.undo_available = b.undo_available ∧ b2.size = b.size := by
  have hlen : ¬(b.get_empty_tiles.length = 0) := fun h0 => hne (List.length_eq_zero.mp h0)
  have hpos : 0 < b.get_empty_tiles.length := Nat.pos_of_ne_zero hlen
  have hmem : b.get_empty_tiles.get ⟨k % b.get_empty_tiles.length, Nat.mod_lt _ hpos⟩
      ∈ b.get_empty_tiles := List.get_mem _ _ _
  obtain ⟨hx, hy, hcell⟩ :=
    (mem_get_empty_tiles b
      (b.get_empty_tiles.get ⟨k % b.get_empty_tiles.length, Nat.mod_lt _ hpos⟩).1
      (b.get_empty_tiles.get ⟨k % b.get_empty_tiles.length, Nat.mod_lt _ hpos⟩).2).mp
      (by rw [Prod.mk.eta]; exact hmem)
  have hy2 : (b.get_empty_tiles.get ⟨k % b.get_empty_tiles.length, Nat.mod_lt _ hpos⟩).2
      < b.grid.length := by rw [hwf.1]; exact hy
  have hrowlen :
      (b.grid.getD (b.get_empty_tiles.get ⟨k % b.get_empty_tiles.length, Nat.mod_lt _ hpos⟩).2 []).length
        = b.size := hwf.2 _ (getD_mem_of_lt _ _ _ hy2)
  have hx2 : (b.get_empty_tiles.get ⟨k % b.get_empty_tiles.length, Nat.mod_lt _ hpos⟩).1
      < (b.grid.getD (b.get_empty_tiles.get ⟨k % b.get_empty_tiles.length, Nat.mod_lt _ hpos⟩).2 []).length := by
    rw [hrowlen]; exact hx
  refine ⟨{ b with grid := setTile b.grid (b.get_empty_tiles.get ⟨k % b.get_empty_tiles.length, Nat.mod_lt _ hpos⟩).1 (b.get_empty_tiles.get ⟨k % b.get_empty_tiles.length, Nat.mod_lt _ hpos⟩).2 ((if coin then 1 else 2) * 2) },
    (b.get_empty_tiles.get ⟨k % b.get_empty_tiles.length, Nat.mod_lt _ hpos⟩).1,
    (b.get_empty_tiles.get ⟨k % b.get_empty_tiles.length, Nat.mod_lt _ hpos⟩).2,
    ?_, by rw [Prod.mk.eta]; exact hmem, hcell, ?_, ?_, rfl, rfl, rfl, rfl⟩
  · rw [Board.add_tile, dif_neg hlen]
  · show getTile (setTile b.grid _ _ _) _ _ = some 2 ∨ getTile (setTile b.grid _ _ _) _ _ = some 4
    rw [getTile_setTile_self _ _ _ _ hy2 hx2]
    cases coin with
    | true => left; rfl
    | false => right; rfl
  · intro x2 y2 hne2
    by_cases hyy : y2 = (b.get_empty_tiles.get ⟨k % b.get_empty_tiles.length, Nat.mod_lt _ hpos⟩).2
    · subst hyy
      have hxx : ¬((b.get_empty_tiles.get ⟨k % b.get_empty_tiles.length, Nat.mod_lt _ hpos⟩).1 = x2) := by
        intro he
        exact hne2 ⟨he.symm, rfl⟩
      exact getTile_setTile_other_col _ _ _ _ _ hy2 hxx
    · exact getTile_setTile_other_row _ _ _ _ _ _ (fun he => hyy he.symm)

theorem claim_C8_add_tile_witness :
    ∃ b2 x y, exMove.add_tile true 0 = some b2 ∧
      (x, y) ∈ exMove.get_empty_tiles ∧ getTile exMove.grid x y = none ∧
      (getTile b2.grid x y = some 2 ∨ getTile b2.grid x y = some 4) ∧
      (∀ x2 y2, ¬(x2 = x ∧ y2 = y) → getTile b2.grid x2 y2 = getTile exMove.grid x2 y2) ∧
      b2.score = exMove.score ∧ b2.prev_grid = exMove.prev_grid ∧
      b2.undo_available = exMove.undo_available ∧ b2.size = exMove.size :=
  claim_C8_add_tile exMove true 0 ⟨by decide, by decide⟩ (by decide)


theorem add_tile_isSome (b : Board) (coin : Bool) (k : Nat)
    (hne : b.get_empty_tiles ≠ []) : ∃ b2, b.add_tile coin k = some b2 := by
  rw [Board.add_tile, dif_neg (fun h0 => hne (List.length_eq_zero.mp h0))]
  exact ⟨_, rfl⟩

theorem add_tile_gridSum (b : Board) (coin : Bool) (k : Nat) (b2 : Board)
    (hwf : BoardWF b) (hadd : b.add_tile coin k = some b2) :
    ∃ num, (num = 2 ∨ num = 4) ∧ gridSum b2.grid = gridSum b.grid + num ∧
      gridCount b2.grid = gridCount b.grid + 1 ∧ b2.score = b.score ∧
      b2.prev_grid = b.prev_grid ∧ b2.undo_available = b.undo_available ∧
      b2.size = b.size := by
  rw [Board.add_tile] at hadd
  by_cases hlen : b.get_empty_tiles.length = 0
  · rw [dif_pos hlen] at hadd
    exact absurd hadd (by simp)
  · rw [dif_neg hlen] at hadd
    have hpos : 0 < b.get_empty_tiles.length := Nat.pos_of_ne_zero hlen
    have hb2 : b2 = { b with grid := setTile b.grid (b.get_empty_tiles.get ⟨k % b.get_empty_tiles.length, Nat.mod_lt _ hpos⟩).1 (b.get_empty_tiles.get ⟨k % b.get_empty_tiles.length, Nat.mod_lt _ hpos⟩).2 ((if coin then 1 else 2) * 2) } := (Option.some.inj hadd).symm
    have hmem : ((b.get_empty_tiles.get ⟨k % b.get_empty_tiles.length, Nat.mod_lt _ hpos⟩).1,
        (b.get_empty_tiles.get ⟨k % b.get_empty_tiles.length, Nat.mod_lt _ hpos⟩).2)
        ∈ b.get_empty_tiles := by
      rw [Prod.mk.eta]
      exact List.get_mem _ _ _
    have hset := setTile_empty b _ _ ((if coin then 1 else 2) * 2) hwf hmem
    refine ⟨(if coin then 1 else 2) * 2, ?_, ?_, ?_, ?_, ?_, ?_, ?_⟩
    · cases coin with
      | true => left; rfl
      | false => right; rfl
    · rw [hb2]; exact hset.1
    · rw [hb2]; exact hset.2
    · rw [hb2]
    · rw [hb2]
    · rw [hb2]
    · rw [hb2]

/-- C6: if `perform_move` leaves the grid identical to its pre-move state,
the whole board is exactly as it was before the call: grid, score,
`undo_available` and `prev_grid` are unchanged, no tile is spawned and the
undo buffer is untouched. -/
theorem claim_C6_noop_move (b : Board) (dir : Direction) (coin : Bool) (k : Nat)
    (b2 : Board) (hwf : BoardWF b)
    (hpm : b.perform_move dir coin k = some b2) (hgrid : b2.grid = b.grid) :
    b2 = b := by
  rw [Board.perform_move] at hpm
  by_cases hsw : (b.do_swipe dir).grid = b.grid
  · rw [if_pos hsw] at hpm
    have hb2 : b2 = { b.do_swipe dir with grid := b.grid } := (Option.some.inj hpm).symm
    rw [hb2]
    have h1 := do_swipe_size b dir
    have h2 := do_swipe_prev b dir
    have h3 := do_swipe_flag b dir
    have h4 := do_swipe_score_eq b dir hwf.1 hsw
    rw [show ({ b.do_swipe dir with grid := b.grid } : Board) = Board.mk (b.do_swipe dir).size b.grid (b.do_swipe dir).prev_grid (b.do_swipe dir).undo_available (b.do_swipe dir).score from rfl, h1, h2, h3, h4]
  · rw [if_neg hsw] at hpm
    exfalso
    have hwf2 : BoardWF (commitBoard b dir) := swipe_WF b dir hwf
    have hpm2 : (commitBoard b dir).add_tile coin k = some b2 := hpm
    obtain ⟨num, hnum, hsum, _, _, _, _⟩ :=
      add_tile_gridSum _ coin k b2 hwf2 hpm2
    have hcons : gridSum (b.do_swipe dir).grid = gridSum b.grid :=
      gridSum_do_swipe b dir hwf
    have hg2 : gridSum b2.grid = gridSum b.grid := by rw [hgrid]
    have hcb : gridSum (commitBoard b dir).grid = gridSum b.grid := by
      rw [show (commitBoard b dir).grid = (b.do_swipe dir).grid from rfl, hcons]
    rcases hnum with rfl | rfl <;> omega

theorem claim_C6_noop_move_witness :
    BoardWF exNoop ∧ exNoop.perform_move Direction.l true 0 = some exNoop ∧
      exNoop = exNoop :=
  ⟨⟨by decide, by decide⟩, by decide,
    claim_C6_noop_move exNoop Direction.l true 0 exNoop ⟨by decide, by decide⟩
      (by decide) rfl⟩

/-- C7: if the swipe changes the grid, `perform_move` stores the pre-move
snapshot as `prev_grid`, sets `undo_available` to true, and spawns exactly
one new tile; at the moment `add_tile` is invoked from this branch at least
one empty cell exists, so its selection from the empty-cell list cannot
fail. -/
theorem claim_C7_effective_move (b : Board) (dir : Direction) (coin : Bool) (k : Nat)
    (hwf : BoardWF b) (hch : (b.do_swipe dir).grid ≠ b.grid) :
    (commitBoard b dir).get_empty_tiles ≠ [] ∧
      ∃ b2, b.perform_move dir coin k = some b2 ∧ b2.prev_grid = some b.grid ∧
        b2.undo_available = true ∧
        gridCount b2.grid = gridCount (b.do_swipe dir).grid + 1 := by
  have hwf2 : BoardWF (commitBoard b dir) := swipe_WF b dir hwf
  have hne : (commitBoard b dir).get_empty_tiles ≠ [] := by
    intro hnil
    refine hch (do_swipe_full b dir hwf ?_)
    intro x y hx hy hcell
    have hmem : (x, y) ∈ (commitBoard b dir).get_empty_tiles := by
      rw [mem_get_empty_tiles]
      refine ⟨?_, ?_, hcell⟩
      · show x < (b.do_swipe dir).size
        rw [do_swipe_size]
        exact hx
      · show y < (b.do_swipe dir).size
        rw [do_swipe_size]
        exact hy
    rw [hnil] at hmem
    exact List.not_mem_nil _ hmem
  refine ⟨hne, ?_⟩
  obtain ⟨b2, hadd⟩ := add_tile_isSome _ coin k hne
  obtain ⟨num, _, _, hcount, _, hprev, hflag, _⟩ :=
    add_tile_gridSum _ coin k b2 hwf2 hadd
  refine ⟨b2, ?_, ?_, ?_, ?_⟩
  · rw [Board.perform_move, if_neg hch]
    exact hadd
  · rw [hprev]
    rfl
  · rw [hflag]
    rfl
  · exact hcount

theorem claim_C7_effective_move_witness :
    (commitBoard exMove Direction.l).get_empty_tiles ≠ [] ∧
      ∃ b2, exMove.perform_move Direction.l true 0 = some b2 ∧
        b2.prev_grid = some exMove.grid ∧ b2.undo_available = true ∧
        gridCount b2.grid = gridCount (exMove.do_swipe Direction.l).grid + 1 :=
  claim_C7_effective_move exMove Direction.l true 0 ⟨by decide, by decide⟩ (by decide)

/-! ## The power-of-two invariant -/

theorem swipeLineAux_mem : ∀ (tiles : List Tile) (acc : List Nat) (s : Nat) (w : Nat),
    w ∈ (swipeLineAux s acc tiles).1 →
    w ∈ acc ∨ w = 0 ∨ ∃ v, some v ∈ tiles ∧ (w = v ∨ w = 2 * v) := by
  intro tiles
  induction tiles with
  | nil =>
    intro acc s w hw
    rw [swipeLineAux] at hw
    left
    exact hw
  | cons t rest ih =>
    intro acc s w hw
    cases t with
    | none =>
      rw [swipeLineAux] at hw
      rcases ih acc s w hw with h | h | ⟨v, hv, hvv⟩
      · left; exact h
      · right; left; exact h
      · right; right; exact ⟨v, List.mem_cons_of_mem _ hv, hvv⟩
    | some v =>
      rw [swipeLineAux] at hw
      by_cases h : v = acc.getLastD 0
      · rw [if_pos h] at hw
        rcases ih _ _ w hw with h2 | h2 | ⟨u, hu, huu⟩
        · rcases List.mem_append.mp h2 with h3 | h3
          · left; exact List.mem_of_mem_dropLast h3
          · right
            rcases (by simpa using h3 : w = 2 * v ∨ w = 0) with h4 | h4
            · right; exact ⟨v, List.mem_cons_self _ _, Or.inr h4⟩
            · left; exact h4
        · right; left; exact h2
        · right; right; exact ⟨u, List.mem_cons_of_mem _ hu, huu⟩
      · rw [if_neg h] at hw
        rcases ih _ _ w hw with h2 | h2 | ⟨u, hu, huu⟩
        · rcases List.mem_append.mp h2 with h3 | h3
          · left; exact h3
          · right; right
            exact ⟨v, List.mem_cons_self _ _, Or.inl (by simpa using h3)⟩
        · right; left; exact h2
        · right; right; exact ⟨u, List.mem_cons_of_mem _ hu, huu⟩

theorem TileOK_none : TileOK none := fun _ hv => Option.noConfusion hv

theorem TileOK_getD (line : List Tile) (x : Nat) (h : LineOK line) :
    TileOK (line.getD x none) := by
  by_cases hx : x < line.length
  · exact h _ (getD_mem_of_lt _ _ _ hx)
  · rw [List.getD_eq_default _ _ (le_of_not_lt hx)]
    exact TileOK_none

theorem lineVals_OK (line : List Tile) (h : LineOK line) (w : Nat)
    (hw : w ∈ lineVals line) : ∃ k, 1 ≤ k ∧ w = 2 ^ k := by
  rw [lineVals] at hw
  have hw2 := List.mem_of_mem_filter hw
  have hwnz : w ≠ 0 := by
    have := List.of_mem_filter hw
    simpa using this
  rcases swipeLineAux_mem line [0] 0 w hw2 with h2 | h2 | ⟨v, hv, hvv⟩
  · exact absurd (by simpa using h2) hwnz
  · exact absurd h2 hwnz
  · obtain ⟨k, hk, hvk⟩ := h _ hv v rfl
    rcases hvv with rfl | rfl
    · exact ⟨k, hk, hvk⟩
    · refine ⟨k + 1, by omega, ?_⟩
      rw [hvk, pow_succ]
      ring

theorem LineOK_packFront (size : Nat) (line : List Tile) (h : LineOK line) :
    LineOK (packFront size line) := by
  intro t ht
  rcases List.mem_append.mp ht with h2 | h2
  · obtain ⟨w, hw, rfl⟩ := List.mem_map.mp h2
    intro v hv
    have hwv : w = v := Option.some.inj hv
    subst hwv
    exact lineVals_OK line h w hw
  · rw [List.eq_of_mem_replicate h2]
    exact TileOK_none

theorem LineOK_packBack (size : Nat) (line : List Tile) (h : LineOK line) :
    LineOK (packBack size line) := by
  intro t ht
  rw [packBack, List.mem_reverse] at ht
  exact LineOK_packFront size line.reverse
    (fun t2 ht2 => h t2 (List.mem_reverse.mp ht2)) t ht

theorem LineOK_column (g : Grid) (x : Nat) (h : GridOK g) : LineOK (column g x) := by
  intro t ht
  rw [column] at ht
  obtain ⟨row, hrow, rfl⟩ := List.mem_map.mp ht
  exact TileOK_getD row x (h row hrow)

theorem LineOK_grid_getD (g : Grid) (y : Nat) (h : GridOK g) : LineOK (g.getD y []) := by
  by_cases hy : y < g.length
  · exact h _ (getD_mem_of_lt _ _ _ hy)
  · rw [List.getD_eq_default _ _ (le_of_not_lt hy)]
    intro t ht
    exact absurd ht (List.not_mem_nil t)

theorem GridOK_do_swipe (b : Board) (dir : Direction) (h : GridOK b.grid) :
    GridOK (b.do_swipe dir).grid := by
  cases dir with
  | l =>
    intro r hr
    rw [show (b.do_swipe Direction.l).grid
        = (List.range b.size).map (fun y => packFront b.size (b.grid.getD y [])) from rfl] at hr
    obtain ⟨y, _, rfl⟩ := List.mem_map.mp hr
    exact LineOK_packFront _ _ (LineOK_grid_getD b.grid y h)
  | r =>
    intro r hr
    rw [show (b.do_swipe Direction.r).grid
        = (List.range b.size).map (fun y => packBack b.size (b.grid.getD y [])) from rfl] at hr
    obtain ⟨y, _, rfl⟩ := List.mem_map.mp hr
    exact LineOK_packBack _ _ (LineOK_grid_getD b.grid y h)
  | u =>
    intro r hr
    rw [show (b.do_swipe Direction.u).grid
        = (List.range b.size).map (fun y => (List.range b.size).map (fun x =>
            (packFront b.size (column b.grid x)).getD y none)) from rfl] at hr
    obtain ⟨y, _, rfl⟩ := List.mem_map.mp hr
    intro t ht
    obtain ⟨x, _, rfl⟩ := List.mem_map.mp ht
    exact TileOK_getD _ y (LineOK_packFront _ _ (LineOK_column b.grid x h))
  | d =>
    intro r hr
    rw [show (b.do_swipe Direction.d).grid
        = (List.range b.size).map (fun y => (List.range b.size).map (fun x =>
            (packBack b.size (column b.grid x)).getD y none)) from rfl] at hr
    obtain ⟨y, _, rfl⟩ := List.mem_map.mp hr
    intro t ht
    obtain ⟨x, _, rfl⟩ := List.mem_map.mp ht
    exact TileOK_getD _ y (LineOK_packBack _ _ (LineOK_column b.grid x h))

theorem GridOK_setTile (g : Grid) (x y num : Nat) (hnum : num = 2 ∨ num = 4)
    (h : GridOK g) : GridOK (setTile g x y num) := by
  intro r hr
  rcases List.mem_or_eq_of_mem_set hr with hr2 | rfl
  · exact h r hr2
  · intro t ht
    rcases List.mem_or_eq_of_mem_set ht with ht2 | rfl
    · exact LineOK_grid_getD g y h t ht2
    · intro v hv
      have hnv : num = v := Option.some.inj hv
      subst hnv
      rcases hnum with rfl | rfl
      · exact ⟨1, by omega, rfl⟩
      · exact ⟨2, by omega, rfl⟩

theorem BoardInv_add_tile (b : Board) (coin : Bool) (k : Nat) (b2 : Board)
    (hinv : BoardInv b) (hadd : b.add_tile coin k = some b2) : BoardInv b2 := by
  rw [Board.add_tile] at hadd
  by_cases hlen : b.get_empty_tiles.length = 0
  · rw [dif_pos hlen] at hadd
    exact absurd hadd (by simp)
  · rw [dif_neg hlen] at hadd
    have hpos : 0 < b.get_empty_tiles.length := Nat.pos_of_ne_zero hlen
    have hb2 : b2 = { b with grid := setTile b.grid (b.get_empty_tiles.get ⟨k % b.get_empty_tiles.length, Nat.mod_lt _ hpos⟩).1 (b.get_empty_tiles.get ⟨k % b.get_empty_tiles.length, Nat.mod_lt _ hpos⟩).2 ((if coin then 1 else 2) * 2) } := (Option.some.inj hadd).symm
    rw [hb2]
    refine ⟨?_, ?_⟩
    · refine GridOK_setTile _ _ _ _ ?_ hinv.1
      cases coin with
      | true => left; rfl
      | false => right; rfl
    · intro pg hpg
      exact hinv.2 pg hpg

theorem BoardInv_undo (b : Board) (hinv : BoardInv b) : BoardInv b.undo := by
  rw [Board.undo]
  by_cases hav : b.undo_available = true
  · rw [if_pos hav]
    refine ⟨?_, ?_⟩
    · show GridOK (b.prev_grid.getD [])
      cases hpg : b.prev_grid with
      | none =>
        intro r hr
        exact absurd hr (List.not_mem_nil r)
      | some pg =>
        rw [show (some pg).getD [] = pg from rfl]
        exact hinv.2 pg hpg
    · intro pg hpg
      exact hinv.2 pg hpg
  · rw [if_neg hav]
    exact hinv

theorem BoardInv_perform_move (b : Board) (dir : Direction) (coin : Bool) (k : Nat)
    (b2 : Board) (hinv : BoardInv b) (hpm : b.perform_move dir coin k = some b2) :
    BoardInv b2 := by
  rw [Board.perform_move] at hpm
  by_cases hsw : (b.do_swipe dir).grid = b.grid
  · rw [if_pos hsw] at hpm
    have hb2 : b2 = { b.do_swipe dir with grid := b.grid } := (Option.some.inj hpm).symm
    rw [hb2]
    refine ⟨hinv.1, ?_⟩
    intro pg hpg
    have hp : b.prev_grid = some pg := by
      rw [← do_swipe_prev b dir]
      exact hpg
    exact hinv.2 pg hp
  · rw [if_neg hsw] at hpm
    have hpm2 : (commitBoard b dir).add_tile coin k = some b2 := hpm
    refine BoardInv_add_tile _ coin k b2 ⟨?_, ?_⟩ hpm2
    · show GridOK (b.do_swipe dir).grid
      exact GridOK_do_swipe b dir hinv.1
    · intro pg hpg
      have hp : some b.grid = some pg := hpg
      rw [← Option.some.inj hp]
      exact hinv.1

/-- C9: the data-model invariant — every non-empty grid cell holds a power of
2 that is at least 2 (and so does every cell of the stored undo snapshot) —
holds for a freshly constructed board and is preserved by every engine
operation: `perform_move` with any direction and random outcome, `add_tile`,
and `undo`. -/
theorem claim_C9_invariant :
    (∀ n b, Board.init n = Except.ok b → BoardInv b) ∧
      (∀ b dir coin k b2, BoardInv b → b.perform_move dir coin k = some b2 →
        BoardInv b2) ∧
      (∀ b coin k b2, BoardInv b → b.add_tile coin k = some b2 → BoardInv b2) ∧
      (∀ b : Board, BoardInv b → BoardInv b.undo) := by
  refine ⟨?_, ?_, ?_, ?_⟩
  · intro n b hinit
    rw [Board.init] at hinit
    by_cases hn : n = 0
    · rw [if_pos hn] at hinit
      exact absurd hinit (by simp)
    · rw [if_neg hn] at hinit
      have hb : b = Board.mk n (List.replicate n (List.replicate n none)) none false 0 :=
        (Except.ok.inj hinit).symm
      rw [hb]
      refine ⟨?_, ?_⟩
      · intro r hr t ht
        rw [List.eq_of_mem_replicate hr] at ht
        rw [List.eq_of_mem_replicate ht]
        exact TileOK_none
      · intro pg hpg
        exact absurd hpg (by simp)
  · intro b dir coin k b2 hinv hpm
    exact BoardInv_perform_move b dir coin k b2 hinv hpm
  · intro b coin k b2 hinv hadd
    exact BoardInv_add_tile b coin k b2 hinv hadd
  · intro b hinv
    exact BoardInv_undo b hinv

theorem claim_C9_invariant_witness :
    BoardInv (Board.mk 2 (List.replicate 2 (List.replicate 2 none)) none false 0) :=
  claim_C9_invariant.1 2 (Board.mk 2 (List.replicate 2 (List.replicate 2 none)) none false 0) rfl
